import Mathlib

/-!
Verification of the NumFlow puzzle core (grid model, tokenizer, evaluator,
rule validator, level generator).  The definitions below are a shallow
embedding of the TypeScript source: pure functions become Lean functions,
thrown exceptions become `Except.error`, and the generator's calls to
`Math.random()` are modelled by an injected random source, one component per
call site (the design note in the specification requires that the generator
admit an injected randomness source).  JavaScript numbers are modelled as
`Int` (all arithmetic in the program is integer arithmetic on small values);
digit cell values are natural numbers.
-/

namespace NumFlow

/-- The operator type: `'+' | '-'`. -/
inductive Op where
  | plus
  | minus
  deriving DecidableEq

/-- The tagged cell union: digit, operator or empty slot.  The optional
`given` field of the source is a `Bool` here; an absent field in the source
object literal reads back as falsy, which is modelled by `false`. -/
inductive Cell where
  | digit (value : Nat) (given : Bool)
  | op (value : Op) (given : Bool)
  | empty
  deriving DecidableEq

/-- A grid is a list of rows of cells (`Cell[][]`); the puzzle shape is
3 rows by 4 columns. -/
abbrev Grid := List (List Cell)

/-- A token is a number or an operator (`Array<number | Op>`). -/
inductive Token where
  | num (n : Int)
  | op (o : Op)
  deriving DecidableEq

/-- Puzzle definition, mirroring the `Puzzle` record of the source. -/
structure Puzzle where
  title : String
  level : Nat
  target : Int
  grid : Grid
  rowDigits : List (List Nat)
  deriving DecidableEq

/-- A level pairs a puzzle with its full solution grid. -/
structure Level where
  puzzle : Puzzle
  solution : Grid
  deriving DecidableEq

/-- `ROW_DIGITS`: the fixed per-row digit pools. -/
def ROW_DIGITS : List (List Nat) := [[1, 2, 3], [4, 5, 6], [7, 8, 9]]

def isEmptyC : Cell → Bool
  | .digit _ _ => false
  | .op _ _ => false
  | .empty => true

def isOpC : Cell → Bool
  | .digit _ _ => false
  | .op _ _ => true
  | .empty => false

def isDigitC : Cell → Bool
  | .digit _ _ => true
  | .op _ _ => false
  | .empty => false

def isNumT : Token → Bool
  | .num _ => true
  | .op _ => false

/-- The value of a digit cell, if any. -/
def digitVal : Cell → Option Nat
  | .digit v _ => some v
  | .op _ _ => none
  | .empty => none

/-- The digit values of the digit cells of a list of cells, in order. -/
def digitsOf (cells : List Cell) : List Nat :=
  cells.filterMap digitVal

/-- `cloneGrid` at the value level: `grid.map((r) => r.map((c) => ({ ...c })))`.
Each cell object is spread-copied; the copy has the same `kind`, `value` and
`given` fields, so at the value level every cell maps to itself.  (The
reference-level content of `cloneGrid` — fresh objects, no aliasing — is
modelled separately by the store semantics `cloneGrid` below.) -/
def cloneGridV (grid : Grid) : Grid :=
  grid.map fun r => r.map fun c => c

/-- `gridIsComplete`: true iff no cell is empty. -/
def gridIsComplete (grid : Grid) : Bool :=
  grid.all fun row => row.all fun c => !isEmptyC c

/-- `acc = op === '+' ? acc + n : acc - n`. -/
def applyOp (acc : Int) (o : Op) (n : Int) : Int :=
  match o with
  | .plus => acc + n
  | .minus => acc - n

/-- The loop of `evalLeftToRight`: for `i = 1; i < tokens.length; i += 2`,
read `tokens[i]` (must be an operator) and `tokens[i+1]` (must be a number;
reading past the end of the array yields `undefined`, hence the error), and
fold into the accumulator. -/
def evalOps (acc : Int) : List Token → Except String Int
  | [] => .ok acc
  | t :: rest =>
    match t, rest with
    | .op o, .num n :: rest2 => evalOps (applyOp acc o n) rest2
    | _, _ => .error "bad token stream"

/-- `evalLeftToRight`: strict left-to-right fold over the token stream. -/
def evalLeftToRight : List Token → Except String Int
  | [] => .error "empty expression"
  | .op _ :: _ => .error "expression must start with number"
  | .num n :: rest => evalOps n rest

/-- The decimal length of a natural number, i.e. the length of its decimal
string (`String(d).length`); `0` prints as `"0"`, length 1. -/
def decLen (d : Nat) : Nat := (Nat.toDigits 10 d).length

/-- `Number(currentDigits.join(''))`: the digit accumulator is joined into a
decimal string and re-parsed.  Appending the decimal string of `d` to a
string whose numeric value is `acc` yields the value
`acc * 10 ^ (decimal length of d) + d`. -/
def concatDigits (ds : List Nat) : Nat :=
  ds.foldl (fun acc d => acc * 10 ^ decLen d + d) 0

/-- The `flushNumber` closure of `buildTokensFromGrid`: an empty accumulator
is not flushed, otherwise it is parsed into one number token. -/
def flushNumber (cur : List Nat) (tokens : List Token) : List Token :=
  match cur with
  | [] => tokens
  | v :: vs => tokens ++ [Token.num (concatDigits (v :: vs))]

/-- The main loop of `buildTokensFromGrid` over the flattened cell list,
carrying the emitted tokens and the current digit accumulator. -/
def buildGo : List Cell → List Token → List Nat → Except String (List Token)
  | [], tokens, cur => .ok (flushNumber cur tokens)
  | c :: cs, tokens, cur =>
    match c with
    | .digit v _ => buildGo cs tokens (cur ++ [v])
    | .op o _ => buildGo cs (flushNumber cur tokens ++ [Token.op o]) []
    | .empty => .error "Grid contains empty cells"

/-- `buildTokensFromGrid`: flatten the grid in reading order (row-major),
then concatenate digit runs and emit operator tokens. -/
def buildTokensFromGrid (grid : Grid) : Except String (List Token) :=
  buildGo grid.flatten [] []

/-- The duplicate-digit scan of `validatePuzzleRules` over one row, carrying
the set of digits seen so far (as a list without duplicates, in insertion
order; the source uses a `Set`). -/
def scanRow : List Cell → List Nat → Except String (List Nat)
  | [], seen => .ok seen
  | c :: cs, seen =>
    match c with
    | .digit v _ =>
      if v ∈ seen then .error ("Digit " ++ toString v ++ " reused.")
      else scanRow cs (seen ++ [v])
    | .op _ _ => scanRow cs seen
    | .empty => scanRow cs seen

/-- The duplicate-digit scan over the whole grid, row-major. -/
def scanGrid : Grid → List Nat → Except String (List Nat)
  | [], seen => .ok seen
  | row :: rows, seen =>
    match scanRow row seen with
    | .error m => .error m
    | .ok s => scanGrid rows s

/-- First digit of a row that is not in the allowed pool, if any. -/
def firstBad (allowed : List Nat) : List Cell → Option Nat
  | [] => none
  | c :: cs =>
    match c with
    | .digit v _ => if v ∈ allowed then firstBad allowed cs else some v
    | .op _ _ => firstBad allowed cs
    | .empty => firstBad allowed cs

/-- The per-row pool check of `validatePuzzleRules` (`r` is the current row
index into `puzzle.rowDigits`). -/
def checkPools (pools : List (List Nat)) : Nat → Grid → Option String
  | _, [] => none
  | r, row :: rows =>
    match firstBad (pools.getD r []) row with
    | some _ =>
      some ("Row " ++ toString (r + 1) ++ " can only use digits \x7b"
        ++ String.intercalate ", " ((pools.getD r []).map toString) ++ "\x7d.")
    | none => checkPools pools (r + 1) rows

/-- The per-row operator cardinality check of `validatePuzzleRules`. -/
def checkOps : Nat → Grid → Option String
  | _, [] => none
  | r, row :: rows =>
    if (row.filter isOpC).length ≠ 1 then
      some ("Row " ++ toString (r + 1) ++ " must have exactly one operator.")
    else checkOps (r + 1) rows

/-- The validator's result record `{ ok: boolean; error?: string }`. -/
structure VResult where
  ok : Bool
  error : Option String
  deriving DecidableEq

/-- `validatePuzzleRules`: digit uniqueness (first duplicate wins), exactly
9 distinct digits placed (the seen list has no duplicates by construction,
so its length is the `Set` size of the source), per-row pool membership,
and exactly one operator cell per row.  The source iterates fixed bounds
`r < 3`, `c < 4`; on the 3-by-4 grids the puzzle uses this coincides with
iterating the list structure, which is what the recursions above do. -/
def validatePuzzleRules (puzzle : Puzzle) (grid : Grid) : VResult :=
  match scanGrid grid [] with
  | .error m => ⟨false, some m⟩
  | .ok seen =>
    if seen.length ≠ 9 then ⟨false, some "All 9 digits must be placed."⟩
    else
      match checkPools puzzle.rowDigits 0 grid with
      | some m => ⟨false, some m⟩
      | none =>
        match checkOps 0 grid with
        | some m => ⟨false, some m⟩
        | none => ⟨true, none⟩

def tokenStr : Token → String
  | .num n => toString n
  | .op .plus => "+"
  | .op .minus => "-"

/-- The result record of `evaluateGrid`. -/
structure EvalResult where
  value : Int
  expr : String
  tokens : List Token
  deriving DecidableEq

/-- The alternation loop of `evaluateGrid` over `tokens[1..]`: the flag is
true when the current (odd) index must hold an operator. -/
def altCheck : Bool → List Token → Except String Unit
  | _, [] => .ok ()
  | true, t :: rest =>
    match t with
    | .op _ => altCheck false rest
    | _ => .error "Expected operator"
  | false, t :: rest =>
    match t with
    | .num _ => altCheck true rest
    | _ => .error "Expected number"

/-- The grammar check of `evaluateGrid`, performed before arithmetic:
length at least 3, number endpoints, strict number/operator alternation. -/
def grammarCheck (tokens : List Token) : Except String Unit :=
  if tokens.length < 3 then .error "Expression too short"
  else if !isNumT (tokens.getD 0 (Token.op Op.plus)) then
    .error "Expression must start with a number"
  else if !isNumT (tokens.getD (tokens.length - 1) (Token.op Op.plus)) then
    .error "Expression must end with a number"
  else altCheck true (tokens.drop 1)

/-- `evaluateGrid`: completeness check, tokenize, grammar check, fold;
`expr` is `tokens.join(' ')`. -/
def evaluateGrid (grid : Grid) : Except String EvalResult :=
  if gridIsComplete grid then
    match buildTokensFromGrid grid with
    | .error e => .error e
    | .ok tokens =>
      match grammarCheck tokens with
      | .error e => .error e
      | .ok _ =>
        match evalLeftToRight tokens with
        | .error e => .error e
        | .ok value => .ok ⟨value, String.intercalate " " (tokens.map tokenStr), tokens⟩
  else .error "Grid is not complete"

/-! ### Level generator

The generator's only impurity is `Math.random()`.  Following the
specification's injected-random-source design note, each call site gets one
component of an explicit random source: `Math.floor(Math.random() * (i + 1))`
(a uniform pick in `0..i`) is modelled as `s i % (i + 1)` for an arbitrary
stream `s : Nat → Nat` (exactly the values `0..i` are reachable), and each
`Math.random() < 0.5` coin is modelled as the `Bool` it decides. -/

/-- The in-place swap `[a[i], a[j]] = [a[j], a[i]]`.  Out-of-range indices
never occur in the program; the model leaves the list unchanged there. -/
def swapL (a : List α) (i j : Nat) : List α :=
  match a[i]?, a[j]? with
  | some x, some y => (a.set i y).set j x
  | _, _ => a

/-- The Fisher–Yates loop of `shuffle`, counting `i` down to 1; at counter
`i` the partner index is `s i % (i + 1)`. -/
def shuffleGo (s : Nat → Nat) (a : List α) : Nat → List α
  | 0 => a
  | i + 1 => shuffleGo s (swapL a (i + 1) (s (i + 1) % (i + 2))) i

/-- `shuffle`: copy the array and run Fisher–Yates from `length - 1` down. -/
def shuffle (s : Nat → Nat) (arr : List α) : List α :=
  shuffleGo s arr (arr.length - 1)

/-- The random outcomes consumed by one `generateLevels` iteration: streams
for the three pool shuffles, the two operator coins, and a stream for the
hint-candidate shuffle. -/
structure LevelRand where
  s1 : Nat → Nat
  s2 : Nat → Nat
  s3 : Nat → Nat
  c2 : Bool
  c3 : Bool
  hs : Nat → Nat

/-- `makeEmptyGrid`: the all-empty template with the fixed operator
topology (row 0 operator given `'+'`, rows 1 and 2 free `'+'` slots). -/
def makeEmptyGrid : Grid :=
  [[.empty, .op .plus true, .empty, .empty],
   [.empty, .empty, .op .plus false, .empty],
   [.empty, .op .plus false, .empty, .empty]]

/-- Read the cell at row `r`, column `c` (in-bounds in every use). -/
def cellAt (g : Grid) (r c : Nat) : Cell := (g.getD r []).getD c .empty

/-- Replace the cell at row `r`, column `c`. -/
def setCell (g : Grid) (r c : Nat) (v : Cell) : Grid :=
  g.set r ((g.getD r []).set c v)

/-- The solution grid assembled from the three shuffled pools and the two
free operators (`r1[0], '+',  r1[1], r1[2] / r2[0], r2[1], op2, r2[2] /
r3[0], op3, r3[1], r3[2]`). -/
def solGrid (r1 r2 r3 : List Nat) (op2 op3 : Op) : Grid :=
  [[.digit (r1.getD 0 0) false, .op .plus true, .digit (r1.getD 1 0) false,
    .digit (r1.getD 2 0) false],
   [.digit (r2.getD 0 0) false, .digit (r2.getD 1 0) false, .op op2 false,
    .digit (r2.getD 2 0) false],
   [.digit (r3.getD 0 0) false, .op op3 false, .digit (r3.getD 1 0) false,
    .digit (r3.getD 2 0) false]]

/-- The starting template: `makeEmptyGrid` with the operator slots of rows 1
and 2 defaulted to the solution's operators (still non-given). -/
def baseGrid (op2 op3 : Op) : Grid :=
  setCell (setCell makeEmptyGrid 1 2 (.op op2 false)) 2 1 (.op op3 false)

/-- The hint candidate positions: the empty cells of the grid, row-major
(`r < 3`, `c < 4`). -/
def emptyPositions (g : Grid) : List (Nat × Nat) :=
  (List.range 3).flatMap fun r =>
    (List.range 4).filterMap fun c =>
      if isEmptyC (cellAt g r c) then some (r, c) else none

/-- The hint-placing loop of `applyHints`: copy the solution digit at each
picked position, marked `given`. -/
def applyPicks (sol : Grid) (picks : List (Nat × Nat)) (g : Grid) : Grid :=
  picks.foldl
    (fun g p =>
      match cellAt sol p.1 p.2 with
      | .digit v _ => setCell g p.1 p.2 (.digit v true)
      | .op _ _ => g
      | .empty => g)
    g

/-- `applyHints`: clone the base grid, pick `hintCount` empty digit
positions from a shuffle of the candidates, and reveal the solution digit at
each as a given.  `slice(0, hintCount)` is `take hintCount`. -/
def applyHints (s : Nat → Nat) (base sol : Grid) (hintCount : Nat) : Grid :=
  let grid := cloneGridV base
  let picks := (shuffle s (emptyPositions grid)).take hintCount
  applyPicks sol picks grid

/-- The difficulty schedule: `hintCount = 2`, overridden to 1 for levels
40–79 and to 0 for levels 80 and up (1-indexed). -/
def hintCountFor (i : Nat) : Nat :=
  if 40 ≤ i ∧ i ≤ 79 then 1 else if 80 ≤ i then 0 else 2

/-- `evaluateGrid(sol).value`: the generator reads the value of the
evaluation, which always succeeds on a generated solution grid (proved
below); the error branch is unreachable. -/
def targetOf (x : Except String EvalResult) : Int :=
  match x with
  | .ok res => res.value
  | .error _ => 0

/-- One iteration of the `generateLevels` loop at 1-indexed level `i`. -/
def generateLevel (l : LevelRand) (i : Nat) : Level :=
  let r1 := shuffle l.s1 (ROW_DIGITS.getD 0 [])
  let r2 := shuffle l.s2 (ROW_DIGITS.getD 1 [])
  let r3 := shuffle l.s3 (ROW_DIGITS.getD 2 [])
  let op2 := if l.c2 then Op.plus else Op.minus
  let op3 := if l.c3 then Op.plus else Op.minus
  let sol := solGrid r1 r2 r3 op2 op3
  let target := targetOf (evaluateGrid sol)
  let hinted := applyHints l.hs (baseGrid op2 op3) sol (hintCountFor i)
  { puzzle :=
      { title := "Numberflow", level := i, target := target,
        grid := hinted, rowDigits := ROW_DIGITS },
    solution := sol }

/-- `generateLevels(count)`: levels `i = 1 .. count` in order, each consuming
its own slice of the random source. -/
def generateLevels (ls : Nat → LevelRand) (count : Nat) : List Level :=
  (List.range count).map fun k => generateLevel (ls k) (k + 1)

/-- `SAMPLE_PUZZLES[0]` of `numflow.ts`: the fixed reference puzzle (target
2379, hint digits 6 and 9 given, fixed operator topology). -/
def samplePuzzle : Puzzle :=
  { title := "Numberflow"
    level := 1
    target := 2379
    rowDigits := [[1, 2, 3], [4, 5, 6], [7, 8, 9]]
    grid :=
      [[.empty, .op .plus true, .empty, .empty],
       [.empty, .digit 6 true, .op .plus false, .empty],
       [.empty, .op .plus false, .empty, .digit 9 true]] }

/-- `SAMPLE_PUZZLES` of `numflow.ts`. -/
def SAMPLE_PUZZLES : List Puzzle := [samplePuzzle]

/-- Whether a cell is a digit cell marked `given`. -/
def isGivenDigit : Cell → Bool
  | .digit _ given => given
  | .op _ _ => false
  | .empty => false

/-- The number of digit cells marked `given` in a grid. -/
def givenDigitCount (g : Grid) : Nat :=
  g.flatten.countP isGivenDigit

/-- The cell a position holds after the hint pass: the solution's digit
marked `given` where the solution has a digit, the original cell
otherwise. -/
def hintCell (sol : Grid) (q : Nat × Nat) (orig : Cell) : Cell :=
  match cellAt sol q.1 q.2 with
  | .digit v _ => .digit v true
  | .op _ _ => orig
  | .empty => orig

/-- The nine digit positions of the fixed operator topology (the empty
cells of the starting template). -/
def candList : List (Nat × Nat) :=
  [(0, 0), (0, 2), (0, 3), (1, 0), (1, 1), (1, 3), (2, 0), (2, 2), (2, 3)]

/-- One cell of a filled grid extends one cell of a puzzle's starting grid:
given cells are preserved exactly, a non-given operator slot stays an
operator cell (its value is player-toggleable), and empty or non-given
digit slots are free. -/
def cellExtends : Cell → Cell → Bool
  | .digit v true, c => c == .digit v true
  | .op o true, c => c == .op o true
  | .op _ false, c => isOpC c
  | .digit _ false, _ => true
  | .empty, _ => true

/-- A grid extends the givens of a template grid: same shape, and every
cell extends the corresponding template cell. -/
def gridExtends (tpl g : Grid) : Bool :=
  tpl.length == g.length &&
    (tpl.zip g).all fun rr =>
      rr.1.length == rr.2.length &&
        (rr.1.zip rr.2).all fun cc => cellExtends cc.1 cc.2

/-! ### Reference-level store semantics for `cloneGrid`

`cloneGrid(grid)` returns fresh cell objects (`{ ...c }`), so mutating a
cell of the clone must not change the input.  To state this, cells are
placed in an explicit store: a grid is a matrix of cell addresses, the store
maps addresses to cell values and allocates fresh addresses in increasing
order. -/

/-- The heap of cell objects: a memory and an allocation watermark. -/
structure Store where
  mem : Nat → Cell
  next : Nat

/-- Allocate a fresh cell object holding value `v`. -/
def alloc (st : Store) (v : Cell) : Store × Nat :=
  (⟨fun a => if a = st.next then v else st.mem a, st.next + 1⟩, st.next)

/-- A grid of cell references. -/
abbrev RGrid := List (List Nat)

/-- Clone one row: a fresh object per cell, spread-copied (`{ ...c }`). -/
def cloneCells (st : Store) : List Nat → Store × List Nat
  | [] => (st, [])
  | a :: as =>
    let p := alloc st (st.mem a)
    let q := cloneCells p.1 as
    (q.1, p.2 :: q.2)

/-- `cloneGrid` at the reference level:
`grid.map((r) => r.map((c) => ({ ...c })))`. -/
def cloneGrid (st : Store) : RGrid → Store × RGrid
  | [] => (st, [])
  | row :: rows =>
    let p := cloneCells st row
    let q := cloneGrid p.1 rows
    (q.1, p.2 :: q.2)

/-- Overwrite the cell object at address `a` (the model of mutating one
cell in place). -/
def write (st : Store) (a : Nat) (v : Cell) : Store :=
  ⟨fun b => if b = a then v else st.mem b, st.next⟩

/-- The cell values a reference grid denotes in a store. -/
def readGrid (st : Store) (g : RGrid) : Grid :=
  g.map fun row => row.map st.mem

/-- All addresses of a reference grid are allocated (below the watermark). -/
def wfR (st : Store) (g : RGrid) : Prop :=
  ∀ a ∈ g.flatten, a < st.next

instance (st : Store) (g : RGrid) : Decidable (wfR st g) := by
  unfold wfR; infer_instance

/-! ### Specification-side definitions

These definitions transcribe the specification's wording (not the source);
the tokenizer and evaluator theorems compare the source embedding against
them. -/

/-- Spec wording: positional base-10 concatenation of a run of digits
(digits `a, b, c` yield `100*a + 10*b + c`). -/
def specNum (ds : List Nat) : Nat :=
  ds.foldl (fun acc d => 10 * acc + d) 0

/-- Decompose a flattened cell list into its maximal runs of consecutive
digit cells, separated by the operator cells, in reading order: the result
is the list of (digit run, following operator) groups plus the trailing
digit run.  Empty cells never occur in a complete grid and are skipped. -/
def toRuns : List Cell → List (List Nat × Op) × List Nat
  | [] => ([], [])
  | c :: cs =>
    let p := toRuns cs
    match c with
    | .digit v _ =>
      match p with
      | ([], last) => ([], v :: last)
      | ((ds, o) :: runs, last) => ((v :: ds, o) :: runs, last)
    | .op o _ => (([], o) :: p.1, p.2)
    | .empty => p

/-- Spec wording: each maximal digit run becomes one number token (its
positional concatenation; an empty run between two operators yields no
token), each operator cell one operator token, in reading order. -/
def tokensOfRuns (runs : List (List Nat × Op)) (last : List Nat) : List Token :=
  (runs.flatMap fun g =>
    (match g.1 with
     | [] => []
     | v :: vs => [Token.num (specNum (v :: vs))]) ++ [Token.op g.2]) ++
  (match last with
   | [] => []
   | v :: vs => [Token.num (specNum (v :: vs))])

/-- The token sequence the specification prescribes for a complete cell
sequence: tokens of its maximal-run decomposition. -/
def specTokens (cells : List Cell) : List Token :=
  tokensOfRuns (toRuns cells).1 (toRuns cells).2

/-- Prepend a digit run onto the leading run of a decomposition (the
invariant of the tokenizer's digit accumulator). -/
def consRun (cur : List Nat) : List (List Nat × Op) × List Nat → List (List Nat × Op) × List Nat
  | ([], last) => ([], cur ++ last)
  | ((ds, o) :: runs, last) => ((cur ++ ds, o) :: runs, last)

/-- Spec wording for the evaluator: a well-formed alternating sequence is a
head number followed by (operator, number) pairs. -/
def toTokens (n0 : Int) (rest : List (Op × Int)) : List Token :=
  Token.num n0 :: rest.flatMap fun p => [Token.op p.1, Token.num p.2]

/-- Spec wording: the strict left-to-right fold, starting from the first
number, applying each (operator, number) pair in sequence. -/
def foldLTR (n0 : Int) (rest : List (Op × Int)) : Int :=
  rest.foldl (fun acc p => applyOp acc p.1 p.2) n0

/-- Whether an `Except` result is a success. -/
def isOkE : Except String α → Bool
  | .ok _ => true
  | .error _ => false

/-- The twelve positions of a 3-by-4 grid, row-major. -/
def allPos : List (Nat × Nat) :=
  (List.range 3).flatMap fun r => (List.range 4).map fun c => (r, c)

/-- The 3-rows-by-4-columns shape every puzzle grid has. -/
def dims3x4 (g : Grid) : Prop :=
  g.length = 3 ∧ ∀ row ∈ g, row.length = 4

instance (g : Grid) : Decidable (dims3x4 g) := by
  unfold dims3x4; infer_instance

/-! ### Concrete fixtures used by witnesses and counterexamples -/

/-- A complete grid solving the reference puzzle:
`1 + 2346 - 57 + 89 = 2379`. -/
def refSolution : Grid :=
  [[.digit 1 false, .op .plus true, .digit 2 false, .digit 3 false],
   [.digit 4 false, .digit 6 true, .op .minus false, .digit 5 false],
   [.digit 7 false, .op .plus false, .digit 8 false, .digit 9 true]]

/-- A fixed random source (all streams zero, both coins heads). -/
def wRand : LevelRand :=
  { s1 := fun _ => 0, s2 := fun _ => 0, s3 := fun _ => 0,
    c2 := false, c3 := false, hs := fun _ => 0 }

/-- A random source steering the generator to the minimum-value solution
`3 + 1245 - 67 - 98 = 1083` (pools shuffled to `[3,1,2]`, `[4,5,6]`,
`[7,9,8]`, both free operators `'-'`). -/
def cRand : LevelRand :=
  { s1 := fun k => if k = 1 then 0 else 1
    s2 := fun k => k
    s3 := fun _ => 1
    c2 := false
    c3 := false
    hs := fun _ => 0 }

/-- A two-cell store for exercising the clone-isolation theorem. -/
def wStore : Store := ⟨fun _ => Cell.empty, 2⟩

/-- A one-row reference grid over `wStore`. -/
def wRGrid : RGrid := [[0, 1]]

instance {ε α : Type _} [DecidableEq ε] [DecidableEq α] :
    DecidableEq (Except ε α)
  | .ok a, .ok b =>
    if h : a = b then isTrue (by rw [h]) else isFalse (by simp [h])
  | .ok _, .error _ => isFalse (by simp)
  | .error _, .ok _ => isFalse (by simp)
  | .error e, .error f =>
    if h : e = f then isTrue (by rw [h]) else isFalse (by simp [h])

/-! ### Digit-concatenation arithmetic -/

theorem decLen_of_lt_ten {d : Nat} (h : d < 10) : decLen d = 1 := by
  simp [decLen, Nat.toDigits, Nat.toDigitsCore, Nat.div_eq_of_lt h]

theorem concatDigits_eq_specNum_aux (ds : List Nat) (acc : Nat)
    (h : ∀ d ∈ ds, d < 10) :
    ds.foldl (fun a d => a * 10 ^ decLen d + d) acc
      = ds.foldl (fun a d => 10 * a + d) acc := by
  induction ds generalizing acc with
  | nil => rfl
  | cons d ds ih =>
    have hd : d < 10 := h d (by simp)
    have hstep : acc * 10 ^ decLen d + d = 10 * acc + d := by
      rw [decLen_of_lt_ten hd]; ring
    simp only [List.foldl_cons, hstep]
    exact ih _ fun x hx => h x (by simp [hx])

/-- On single-decimal-digit values, join-then-parse concatenation agrees with
the specification's positional fold. -/
theorem concatDigits_eq_specNum {ds : List Nat} (h : ∀ d ∈ ds, d < 10) :
    concatDigits ds = specNum ds :=
  concatDigits_eq_specNum_aux ds 0 h

theorem concat_two {f g : Nat} (hf : f < 10) (hg : g < 10) :
    concatDigits [f, g] = 10 * f + g := by
  rw [concatDigits_eq_specNum (by intro d hd; simp at hd; rcases hd with rfl | rfl <;> assumption)]
  simp [specNum]

theorem concat_four {b c d e : Nat} (hb : b < 10) (hc : c < 10) (hd : d < 10)
    (he : e < 10) : concatDigits [b, c, d, e] = 1000 * b + 100 * c + 10 * d + e := by
  rw [concatDigits_eq_specNum
    (by intro x hx; simp at hx; rcases hx with rfl | rfl | rfl | rfl <;> assumption)]
  simp [specNum]; ring

/-! ### The shuffle returns a permutation of its input -/

theorem cons_set_perm {α : Type _} (t : List α) (m : Nat) (v w : α)
    (h : t[m]? = some v) : (v :: t.set m w).Perm (w :: t) := by
  induction t generalizing m with
  | nil => simp at h
  | cons c t ih =>
    cases m with
    | zero =>
      simp at h
      rw [← h]
      simpa using List.Perm.swap w c t
    | succ m =>
      simp at h
      exact (List.Perm.swap c v _).trans (((ih m h).cons c).trans (List.Perm.swap w c t))

theorem set_set_perm {α : Type _} (a : List α) (i j : Nat) (x y : α)
    (hi : a[i]? = some x) (hj : a[j]? = some y) :
    ((a.set i y).set j x).Perm a := by
  induction a generalizing i j with
  | nil => simp at hi
  | cons c t ih =>
    cases i with
    | zero =>
      simp at hi
      rw [← hi]
      cases j with
      | zero =>
        simp at hj
        rw [← hj]
        simp
      | succ m =>
        simp at hj
        simpa using cons_set_perm t m y c hj
    | succ n =>
      simp at hi
      cases j with
      | zero =>
        simp at hj
        rw [← hj]
        simpa using cons_set_perm t n x c hi
      | succ m =>
        simp at hj
        simpa using (ih n m hi hj).cons c

theorem swapL_perm {α : Type _} (a : List α) (i j : Nat) : (swapL a i j).Perm a := by
  unfold swapL
  cases hi : a[i]? with
  | none => exact List.Perm.refl a
  | some x =>
    cases hj : a[j]? with
    | none => exact List.Perm.refl a
    | some y => exact set_set_perm a i j x y hi hj

theorem shuffleGo_perm {α : Type _} (s : Nat → Nat) (a : List α) (n : Nat) :
    (shuffleGo s a n).Perm a := by
  induction n generalizing a with
  | zero => exact List.Perm.refl a
  | succ i ih => exact (ih _).trans (swapL_perm a (i + 1) (s (i + 1) % (i + 2)))

/-- The Fisher–Yates shuffle returns a permutation of its input, whatever
the random stream. -/
theorem shuffle_perm {α : Type _} (s : Nat → Nat) (arr : List α) :
    (shuffle s arr).Perm arr :=
  shuffleGo_perm s arr (arr.length - 1)


/-! ### Characterizing the validator -/

theorem digitsOf_append (xs ys : List Cell) :
    digitsOf (xs ++ ys) = digitsOf xs ++ digitsOf ys := by
  simp [digitsOf]

theorem scanRow_ok_of_nodup (cells : List Cell) (seen : List Nat)
    (h : (seen ++ digitsOf cells).Nodup) :
    scanRow cells seen = .ok (seen ++ digitsOf cells) := by
  induction cells generalizing seen with
  | nil => simp [scanRow, digitsOf]
  | cons c cs ih =>
    cases c with
    | digit v g =>
      have hds : seen ++ digitsOf (Cell.digit v g :: cs)
          = (seen ++ [v]) ++ digitsOf cs := by
        simp [digitsOf, digitVal]
      rw [hds] at h ⊢
      have hv : v ∉ seen := by
        rcases List.nodup_append.1 h with ⟨h1, _, _⟩
        rcases List.nodup_append.1 h1 with ⟨_, _, hd⟩
        exact fun hmem => hd hmem (by simp)
      rw [scanRow, if_neg hv]
      exact ih (seen ++ [v]) h
    | op o g =>
      rw [scanRow]
      have hdg : digitsOf (Cell.op o g :: cs) = digitsOf cs := by
        simp [digitsOf, digitVal]
      rw [hdg] at h ⊢
      exact ih seen h
    | empty =>
      rw [scanRow]
      have hdg : digitsOf (Cell.empty :: cs) = digitsOf cs := by
        simp [digitsOf, digitVal]
      rw [hdg] at h ⊢
      exact ih seen h

theorem scanRow_ok_inv (cells : List Cell) (seen s : List Nat)
    (h : scanRow cells seen = .ok s) :
    s = seen ++ digitsOf cells ∧ (seen.Nodup → s.Nodup) := by
  induction cells generalizing seen with
  | nil =>
    simp [scanRow] at h
    simp [digitsOf, ← h]
  | cons c cs ih =>
    cases c with
    | digit v g =>
      rw [scanRow] at h
      by_cases hv : v ∈ seen
      · rw [if_pos hv] at h
        exact absurd h (by simp)
      · rw [if_neg hv] at h
        rcases ih (seen ++ [v]) h with ⟨h1, h2⟩
        refine ⟨by simp [digitsOf, digitVal, h1], fun hn => h2 ?_⟩
        rw [List.nodup_append]
        refine ⟨hn, by simp, fun a ha hb => ?_⟩
        simp at hb
        subst hb
        exact hv ha
    | op o g =>
      rw [scanRow] at h
      rcases ih seen h with ⟨h1, h2⟩
      exact ⟨by simp [digitsOf, digitVal, h1], h2⟩
    | empty =>
      rw [scanRow] at h
      rcases ih seen h with ⟨h1, h2⟩
      exact ⟨by simp [digitsOf, digitVal, h1], h2⟩

theorem scanGrid_ok_of_nodup (rows : Grid) (seen : List Nat)
    (h : (seen ++ digitsOf rows.flatten).Nodup) :
    scanGrid rows seen = .ok (seen ++ digitsOf rows.flatten) := by
  induction rows generalizing seen with
  | nil => simp [scanGrid, digitsOf]
  | cons row rows ih =>
    have hsplit : seen ++ digitsOf (row :: rows).flatten
        = (seen ++ digitsOf row) ++ digitsOf rows.flatten := by
      simp [digitsOf_append]
    rw [hsplit] at h ⊢
    rw [scanGrid, scanRow_ok_of_nodup row seen (by
      rcases List.nodup_append.1 h with ⟨h1, _, _⟩
      exact h1)]
    exact ih (seen ++ digitsOf row) h

theorem scanGrid_ok_inv (rows : Grid) (seen s : List Nat)
    (h : scanGrid rows seen = .ok s) :
    s = seen ++ digitsOf rows.flatten ∧ (seen.Nodup → s.Nodup) := by
  induction rows generalizing seen with
  | nil =>
    simp [scanGrid] at h
    simp [digitsOf, ← h]
  | cons row rows ih =>
    rw [scanGrid] at h
    cases hrow : scanRow row seen with
    | error m => rw [hrow] at h; exact absurd h (by simp)
    | ok s1 =>
      rw [hrow] at h
      rcases scanRow_ok_inv row seen s1 hrow with ⟨e1, n1⟩
      rcases ih s1 h with ⟨e2, n2⟩
      subst e1
      exact ⟨by simp [e2, digitsOf_append], fun hn => n2 (n1 hn)⟩

theorem firstBad_none_iff (allowed : List Nat) (cells : List Cell) :
    firstBad allowed cells = none ↔ ∀ v ∈ digitsOf cells, v ∈ allowed := by
  induction cells with
  | nil => simp [firstBad, digitsOf]
  | cons c cs ih =>
    cases c with
    | digit v g =>
      by_cases hv : v ∈ allowed
      · rw [firstBad, if_pos hv]
        simp [digitsOf, digitVal, ih, hv]
      · rw [firstBad, if_neg hv]
        simp [digitsOf, digitVal, hv]
    | op o g =>
      rw [firstBad]
      simpa [digitsOf, digitVal] using ih
    | empty =>
      rw [firstBad]
      simpa [digitsOf, digitVal] using ih

theorem checkPools_none_iff (pools : List (List Nat)) (rows : Grid) (r : Nat) :
    checkPools pools r rows = none ↔
      ∀ k row, rows[k]? = some row → ∀ v ∈ digitsOf row, v ∈ pools.getD (r + k) [] := by
  induction rows generalizing r with
  | nil => simp [checkPools]
  | cons row rows ih =>
    rw [checkPools]
    cases hfb : firstBad (pools.getD r []) row with
    | some v =>
      constructor
      · intro h
        exact absurd h (by simp)
      · intro h
        have h0 := h 0 row (by simp)
        rw [Nat.add_zero] at h0
        have := (firstBad_none_iff (pools.getD r []) row).2 h0
        rw [this] at hfb
        exact absurd hfb (by simp)
    | none =>
      rw [ih (r + 1)]
      constructor
      · intro h k rw2 hk
        cases k with
        | zero =>
          simp at hk
          subst hk
          rw [Nat.add_zero]
          exact (firstBad_none_iff (pools.getD r []) _).1 hfb
        | succ k =>
          simp at hk
          have hkk := h k rw2 hk
          have harith : r + 1 + k = r + (k + 1) := by omega
          rw [harith] at hkk
          exact hkk
      · intro h k rw2 hk
        have hkk := h (k + 1) rw2 (by simpa using hk)
        have harith : r + (k + 1) = r + 1 + k := by omega
        rw [harith] at hkk
        exact hkk

theorem checkOps_none_iff (rows : Grid) (r : Nat) :
    checkOps r rows = none ↔ ∀ row ∈ rows, (row.filter isOpC).length = 1 := by
  induction rows generalizing r with
  | nil => simp [checkOps]
  | cons row rows ih =>
    rw [checkOps]
    by_cases hrow : (row.filter isOpC).length = 1
    · rw [if_neg (by simpa using hrow)]
      simp [ih (r + 1), hrow]
    · rw [if_pos (by simpa using hrow)]
      simp [hrow]

/-- `validatePuzzleRules` succeeds exactly when the digit cells carry
pairwise distinct values, there are 9 of them, every digit lies in its row's
pool, and every row has exactly one operator cell. -/
theorem validate_ok_iff (p : Puzzle) (g : Grid) :
    (validatePuzzleRules p g).ok = true ↔
      (digitsOf g.flatten).Nodup ∧ (digitsOf g.flatten).length = 9 ∧
      (∀ k row, g[k]? = some row → ∀ v ∈ digitsOf row, v ∈ p.rowDigits.getD k []) ∧
      (∀ row ∈ g, (row.filter isOpC).length = 1) := by
  constructor
  · intro h
    rw [validatePuzzleRules] at h
    split at h
    · simp at h
    · rename_i seen hscan
      rcases scanGrid_ok_inv g [] seen hscan with ⟨he, hn⟩
      simp only [List.nil_append] at he
      subst he
      split at h
      · simp at h
      · rename_i hlen
        split at h
        · simp at h
        · rename_i hcp
          split at h
          · simp at h
          · rename_i hco
            refine ⟨hn (by simp), by omega, ?_, (checkOps_none_iff g 0).1 hco⟩
            have := (checkPools_none_iff p.rowDigits g 0).1 hcp
            simpa using this
  · rintro ⟨hnd, hlen, hcp, hco⟩
    have h1 : checkPools p.rowDigits 0 g = none :=
      (checkPools_none_iff p.rowDigits g 0).2 (by simpa using hcp)
    have h2 : checkOps 0 g = none := (checkOps_none_iff g 0).2 hco
    rw [validatePuzzleRules, scanGrid_ok_of_nodup g [] (by simpa using hnd)]
    simp [hlen, h1, h2]

/-! ### Facts about permutations of the three digit pools -/

theorem perm_pool_facts {x y z u v w : Nat}
    (h : ([x, y, z] : List Nat).Perm [u, v, w])
    (hn : ([u, v, w] : List Nat).Nodup) :
    (x = u ∨ x = v ∨ x = w) ∧ (y = u ∨ y = v ∨ y = w) ∧
    (z = u ∨ z = v ∨ z = w) ∧ x ≠ y ∧ x ≠ z ∧ y ≠ z := by
  have hx : x ∈ [u, v, w] := h.mem_iff.1 (by simp)
  have hy : y ∈ [u, v, w] := h.mem_iff.1 (by simp)
  have hz : z ∈ [u, v, w] := h.mem_iff.1 (by simp)
  have hnd : ([x, y, z] : List Nat).Nodup := h.nodup_iff.2 hn
  simp at hx hy hz hnd
  exact ⟨hx, hy, hz, hnd.1.1, hnd.1.2, hnd.2⟩

theorem pool1_bound {x y z : Nat} (h : ([x, y, z] : List Nat).Perm [1, 2, 3]) :
    1203 ≤ x + 1000 * y + 100 * z ∧ x ≤ 3 ∧ y ≤ 3 ∧ z ≤ 3 ∧ 1 ≤ x ∧ 1 ≤ y ∧ 1 ≤ z := by
  obtain ⟨hx, hy, hz, hxy, hxz, hyz⟩ := perm_pool_facts h (by decide)
  omega

theorem pool2_bound {x y z : Nat} (h : ([x, y, z] : List Nat).Perm [4, 5, 6]) :
    45 ≤ 10 * x + y ∧ 4 ≤ z ∧ z ≤ 6 ∧ x ≤ 6 ∧ y ≤ 6 := by
  obtain ⟨hx, hy, hz, hxy, hxz, hyz⟩ := perm_pool_facts h (by decide)
  omega

theorem pool3_bound {x y z : Nat} (h : ([x, y, z] : List Nat).Perm [7, 8, 9]) :
    x + 10 * y + z ≤ 105 ∧ 78 ≤ 10 * y + z ∧ 10 * y + z ≤ 98 ∧ 7 ≤ x ∧ x ≤ 9 ∧
    y ≤ 9 ∧ z ≤ 9 := by
  obtain ⟨hx, hy, hz, hxy, hxz, hyz⟩ := perm_pool_facts h (by decide)
  omega

/-! ### Evaluating a generated solution grid -/

theorem applyOp_plus (x y : Int) : applyOp x .plus y = x + y := rfl

theorem applyOp_minus (x y : Int) : applyOp x .minus y = x - y := rfl

/-- A generated solution grid always evaluates: its token stream is
`r1[0] + [r1[1] r1[2] r2[0] r2[1]] op2 [r2[2] r3[0]] op3 [r3[1] r3[2]]`
(brackets are digit concatenation), and the value is the left-to-right
fold. -/
theorem eval_solGrid (a b c d e f g h i : Nat) (op2 op3 : Op)
    (hb : b < 10) (hc : c < 10) (hd : d < 10) (he : e < 10)
    (hf : f < 10) (hg : g < 10) (hh : h < 10) (hi : i < 10) :
    Except.map (fun r => r.value)
        (evaluateGrid (solGrid [a, b, c] [d, e, f] [g, h, i] op2 op3))
      = .ok (applyOp (applyOp ((a : Int) + ((1000 * b + 100 * c + 10 * d + e : Nat) : Int))
          op2 ((10 * f + g : Nat) : Int)) op3 ((10 * h + i : Nat) : Int)) := by
  have t1 : concatDigits [a] = a := by simp [concatDigits]
  have t4 := concat_four hb hc hd he
  have t2a := concat_two hf hg
  have t2b := concat_two hh hi
  simp [evaluateGrid, solGrid, gridIsComplete, isEmptyC, buildTokensFromGrid,
        buildGo, flushNumber, grammarCheck, isNumT, altCheck,
        evalLeftToRight, evalOps, Except.map, t1, t4, t2a, t2b, applyOp_plus]

/-! ### Reading and writing single cells -/

theorem length_eq_four {α : Type _} {l : List α} :
    l.length = 4 ↔ ∃ a b c d, l = [a, b, c, d] := by
  constructor
  · intro h
    cases l with
    | nil => simp at h
    | cons a t =>
      have ht : t.length = 3 := by simpa using h
      obtain ⟨b, c, d, rfl⟩ := List.length_eq_three.1 ht
      exact ⟨a, b, c, d, rfl⟩
  · rintro ⟨a, b, c, d, rfl⟩
    rfl

theorem cellAt_setCell_same (g : Grid) (r c : Nat) (v : Cell)
    (hr : r < g.length) (hc : c < (g.getD r []).length) :
    cellAt (setCell g r c v) r c = v := by
  simp only [cellAt, setCell, List.getD_eq_getElem?_getD] at hc ⊢
  rw [List.getElem?_set_self hr, Option.getD_some,
    List.getElem?_set_self (by simpa using hc), Option.getD_some]

theorem cellAt_setCell_ne (g : Grid) (r c r2 c2 : Nat) (v : Cell)
    (hne : r ≠ r2 ∨ c ≠ c2) :
    cellAt (setCell g r c v) r2 c2 = cellAt g r2 c2 := by
  simp only [cellAt, setCell, List.getD_eq_getElem?_getD]
  by_cases hr : r = r2
  · subst hr
    have hcne : c ≠ c2 := by
      rcases hne with h | h
      · exact absurd rfl h
      · exact h
    rw [List.getElem?_set_self']
    cases hg : g[r]? with
    | none => simp
    | some row =>
      simp only [Option.map_some, Function.const_apply, Option.getD_some]
      rw [List.getElem?_set_ne hcne]
  · rw [List.getElem?_set_ne hr]

theorem setCell_dims {g : Grid} (hd : dims3x4 g) (r c : Nat) (v : Cell) :
    dims3x4 (setCell g r c v) := by
  obtain ⟨h1, h2⟩ := hd
  by_cases hr : r < g.length
  · refine ⟨by simp [setCell, h1], ?_⟩
    intro row hrow
    rcases List.mem_or_eq_of_mem_set hrow with h | h
    · exact h2 row h
    · subst h
      rw [List.length_set, List.getD_eq_getElem?_getD,
        List.getElem?_eq_getElem hr, Option.getD_some]
      exact h2 _ (List.getElem_mem hr)
  · rw [setCell, List.set_eq_of_length_le (by omega)]
    refine ⟨h1, h2⟩

theorem applyPicks_cons (sol : Grid) (p : Nat × Nat) (ps : List (Nat × Nat))
    (g : Grid) :
    applyPicks sol (p :: ps) g = applyPicks sol ps
      (match cellAt sol p.1 p.2 with
       | Cell.digit v _ => setCell g p.1 p.2 (Cell.digit v true)
       | Cell.op _ _ => g
       | Cell.empty => g) := rfl

theorem applyPicks_dims (sol : Grid) (ps : List (Nat × Nat)) (g : Grid)
    (hd : dims3x4 g) : dims3x4 (applyPicks sol ps g) := by
  induction ps generalizing g with
  | nil => exact hd
  | cons p ps ih =>
    rw [applyPicks_cons]
    cases hc : cellAt sol p.1 p.2 with
    | digit v gv => exact ih _ (setCell_dims hd p.1 p.2 _)
    | op o gv => exact ih _ hd
    | empty => exact ih _ hd

theorem cellAt_applyPicks (sol : Grid) (ps : List (Nat × Nat)) (g : Grid)
    (hnd : ps.Nodup) (hb : ∀ p ∈ ps, p.1 < 3 ∧ p.2 < 4) (hg : dims3x4 g)
    (q : Nat × Nat) (hq : q.1 < 3 ∧ q.2 < 4) :
    cellAt (applyPicks sol ps g) q.1 q.2 =
      if q ∈ ps then hintCell sol q (cellAt g q.1 q.2)
      else cellAt g q.1 q.2 := by
  induction ps generalizing g with
  | nil => simp [applyPicks]
  | cons p ps ih =>
    rw [applyPicks_cons]
    have hpn : p ∉ ps := (List.nodup_cons.1 hnd).1
    have hnd2 : ps.Nodup := (List.nodup_cons.1 hnd).2
    have hb2 : ∀ x ∈ ps, x.1 < 3 ∧ x.2 < 4 := fun x hx => hb x (by simp [hx])
    set g2 := (match cellAt sol p.1 p.2 with
      | Cell.digit v _ => setCell g p.1 p.2 (Cell.digit v true)
      | Cell.op _ _ => g
      | Cell.empty => g) with hg2
    have hg2d : dims3x4 g2 := by
      rw [hg2]
      cases cellAt sol p.1 p.2 with
      | digit v gv => exact setCell_dims hg p.1 p.2 _
      | op o gv => exact hg
      | empty => exact hg
    rw [ih g2 hnd2 hb2 hg2d]
    by_cases hqp : q = p
    · subst hqp
      rw [if_neg hpn, if_pos (by simp)]
      obtain ⟨hgl, hgr⟩ := hg
      have hq1 : q.1 < g.length := by omega
      have hrow4 : (g.getD q.1 []).length = 4 := by
        rw [List.getD_eq_getElem?_getD, List.getElem?_eq_getElem hq1,
          Option.getD_some]
        exact hgr _ (List.getElem_mem hq1)
      rw [hg2, hintCell]
      cases cellAt sol q.1 q.2 with
      | digit v gv =>
        exact cellAt_setCell_same g q.1 q.2 _ hq1 (by omega)
      | op o gv => rfl
      | empty => rfl
    · have hne : p.1 ≠ q.1 ∨ p.2 ≠ q.2 := by
        by_contra hcon
        push_neg at hcon
        exact hqp (Prod.ext hcon.1.symm hcon.2.symm)
      have hcell : cellAt g2 q.1 q.2 = cellAt g q.1 q.2 := by
        rw [hg2]
        cases cellAt sol p.1 p.2 with
        | digit v gv => exact cellAt_setCell_ne g p.1 p.2 q.1 q.2 _ hne
        | op o gv => rfl
        | empty => rfl
      rw [hcell]
      by_cases hqs : q ∈ ps
      · rw [if_pos hqs, if_pos (by simp [hqs])]
      · rw [if_neg hqs, if_neg (by simp [hqp, hqs])]

/-! ### Counting the hinted givens -/

theorem cloneGridV_eq (g : Grid) : cloneGridV g = g := by
  simp [cloneGridV]

theorem baseGrid_eq (op2 op3 : Op) :
    baseGrid op2 op3 =
      [[.empty, .op .plus true, .empty, .empty],
       [.empty, .empty, .op op2 false, .empty],
       [.empty, .op op3 false, .empty, .empty]] := rfl

theorem baseGrid_dims (op2 op3 : Op) : dims3x4 (baseGrid op2 op3) := by
  rw [baseGrid_eq]
  refine ⟨rfl, ?_⟩
  intro row h
  simp at h
  rcases h with rfl | rfl | rfl <;> rfl

theorem emptyPositions_base (op2 op3 : Op) :
    emptyPositions (baseGrid op2 op3) = candList := rfl

theorem allPos_eq :
    allPos = [(0, 0), (0, 1), (0, 2), (0, 3), (1, 0), (1, 1), (1, 2), (1, 3),
      (2, 0), (2, 1), (2, 2), (2, 3)] := rfl

theorem base_no_givenDigit (op2 op3 : Op) :
    ∀ q ∈ allPos, isGivenDigit (cellAt (baseGrid op2 op3) q.1 q.2) = false := by
  intro q hq
  rw [allPos_eq] at hq
  fin_cases hq <;> rfl

theorem count_positions (g : Grid) (hg : dims3x4 g) :
    givenDigitCount g = allPos.countP fun q => isGivenDigit (cellAt g q.1 q.2) := by
  obtain ⟨h3, h4⟩ := hg
  obtain ⟨r0, r1, r2, rfl⟩ := List.length_eq_three.1 h3
  obtain ⟨a0, a1, a2, a3, ha⟩ := length_eq_four.1 (h4 r0 (by simp))
  obtain ⟨b0, b1, b2, b3, hb⟩ := length_eq_four.1 (h4 r1 (by simp))
  obtain ⟨c0, c1, c2, c3, hc⟩ := length_eq_four.1 (h4 r2 (by simp))
  subst ha hb hc
  rfl

theorem countP_mem_eq_length {qs ps : List (Nat × Nat)} (hq : qs.Nodup)
    (hp : ps.Nodup) (hsub : ∀ p ∈ ps, p ∈ qs) :
    (qs.countP fun q => decide (q ∈ ps)) = ps.length := by
  rw [List.countP_eq_length_filter]
  have hperm : (qs.filter fun q => decide (q ∈ ps)).Perm ps := by
    rw [List.perm_ext_iff_of_nodup (hq.filter _) hp]
    intro a
    simp only [List.mem_filter, decide_eq_true_eq]
    exact ⟨fun h => h.2, fun h => ⟨hsub a h, h⟩⟩
  exact hperm.length_eq

/-- Hint application on the starting template adds exactly `n` given digit
cells, provided the solution has a digit at every candidate position. -/
theorem givenDigitCount_applyHints (hs : Nat → Nat) (op2 op3 : Op) (sol : Grid)
    (n : Nat)
    (hsol : ∀ q ∈ candList, ∃ v gv, cellAt sol q.1 q.2 = Cell.digit v gv)
    (hn : n ≤ 9) :
    givenDigitCount (applyHints hs (baseGrid op2 op3) sol n) = n := by
  simp only [applyHints]
  rw [cloneGridV_eq, emptyPositions_base]
  have hperm := shuffle_perm hs candList
  have hlen9 : (shuffle hs candList).length = 9 := by
    rw [hperm.length_eq]
    rfl
  have hnodup : ((shuffle hs candList).take n).Nodup :=
    List.Nodup.sublist (List.take_sublist n _) (hperm.nodup_iff.2 (by decide))
  have hmem : ∀ p ∈ (shuffle hs candList).take n, p ∈ candList :=
    fun p hp => hperm.mem_iff.1 ((List.take_sublist n _).subset hp)
  have hbounds : ∀ p ∈ (shuffle hs candList).take n, p.1 < 3 ∧ p.2 < 4 := by
    intro p hp
    have := hmem p hp
    rw [show candList = [(0, 0), (0, 2), (0, 3), (1, 0), (1, 1), (1, 3), (2, 0),
      (2, 2), (2, 3)] from rfl] at this
    fin_cases this <;> exact ⟨by omega, by omega⟩
  have hplen : ((shuffle hs candList).take n).length = n := by
    rw [List.length_take, hlen9, Nat.min_eq_left hn]
  rw [count_positions _ (applyPicks_dims sol _ _ (baseGrid_dims op2 op3))]
  have hcongr : List.countP
      (fun q => isGivenDigit (cellAt
        (applyPicks sol ((shuffle hs candList).take n) (baseGrid op2 op3)) q.1 q.2))
      allPos
      = List.countP (fun q => decide (q ∈ (shuffle hs candList).take n)) allPos := by
    refine List.countP_congr ?_
    intro q hq
    have hqb : q.1 < 3 ∧ q.2 < 4 := by
      rw [allPos_eq] at hq
      fin_cases hq <;> exact ⟨by omega, by omega⟩
    rw [cellAt_applyPicks sol _ _ hnodup hbounds (baseGrid_dims op2 op3) q hqb]
    by_cases hqp : q ∈ (shuffle hs candList).take n
    · rw [if_pos hqp]
      obtain ⟨v, gv, hv⟩ := hsol q (hmem q hqp)
      simp [hintCell, hv, isGivenDigit, hqp]
    · rw [if_neg hqp]
      simp [base_no_givenDigit op2 op3 q hq, hqp]
  rw [hcongr]
  rw [countP_mem_eq_length (by rw [allPos_eq]; decide) hnodup
    (fun p hp => by
      have hpc := hmem p hp
      rw [allPos_eq]
      rw [show candList = [(0, 0), (0, 2), (0, 3), (1, 0), (1, 1), (1, 3),
        (2, 0), (2, 2), (2, 3)] from rfl] at hpc
      fin_cases hpc <;> simp)]
  exact hplen

/-! ### The generated levels -/

theorem target_of_map {X : Except String EvalResult} {v : Int}
    (h : Except.map (fun r => r.value) X = .ok v) :
    targetOf X = v := by
  cases X with
  | ok res => simpa [targetOf, Except.map] using h
  | error e => simp [Except.map] at h

theorem solGrid_digitAt (r1 r2 r3 : List Nat) (op2 op3 : Op) :
    ∀ q ∈ candList, ∃ v gv,
      cellAt (solGrid r1 r2 r3 op2 op3) q.1 q.2 = Cell.digit v gv := by
  intro q hq
  rw [show candList = [(0, 0), (0, 2), (0, 3), (1, 0), (1, 1), (1, 3),
    (2, 0), (2, 2), (2, 3)] from rfl] at hq
  fin_cases hq <;> exact ⟨_, _, rfl⟩

theorem hintCountFor_le_two (i : Nat) : hintCountFor i ≤ 2 := by
  unfold hintCountFor
  split_ifs <;> omega

theorem validate_solGrid (pz : Puzzle) (hpz : pz.rowDigits = ROW_DIGITS)
    (a b c d e f g h i : Nat) (op2 op3 : Op)
    (p1 : ([a, b, c] : List Nat).Perm [1, 2, 3])
    (p2 : ([d, e, f] : List Nat).Perm [4, 5, 6])
    (p3 : ([g, h, i] : List Nat).Perm [7, 8, 9]) :
    (validatePuzzleRules pz
      (solGrid [a, b, c] [d, e, f] [g, h, i] op2 op3)).ok = true := by
  rw [validate_ok_iff]
  have hflat : digitsOf (solGrid [a, b, c] [d, e, f] [g, h, i] op2 op3).flatten
      = [a, b, c, d, e, f, g, h, i] := rfl
  refine ⟨?_, ?_, ?_, ?_⟩
  · rw [hflat]
    have hall : ([a, b, c, d, e, f, g, h, i] : List Nat).Perm
        [1, 2, 3, 4, 5, 6, 7, 8, 9] := by
      have := p1.append (p2.append p3)
      simpa using this
    exact hall.nodup_iff.2 (by decide)
  · rw [hflat]
    rfl
  · intro k row hk
    rw [hpz]
    rcases k with _ | _ | _ | k
    · simp [solGrid] at hk
      subst hk
      intro v hv
      have hm : v ∈ ([a, b, c] : List Nat) := by
        simpa [digitsOf, digitVal] using hv
      simpa [ROW_DIGITS] using p1.mem_iff.1 hm
    · simp [solGrid] at hk
      subst hk
      intro v hv
      have hm : v ∈ ([d, e, f] : List Nat) := by
        simpa [digitsOf, digitVal] using hv
      simpa [ROW_DIGITS] using p2.mem_iff.1 hm
    · simp [solGrid] at hk
      subst hk
      intro v hv
      have hm : v ∈ ([g, h, i] : List Nat) := by
        simpa [digitsOf, digitVal] using hv
      simpa [ROW_DIGITS] using p3.mem_iff.1 hm
    · simp [solGrid] at hk
  · intro row hrow
    simp [solGrid] at hrow
    rcases hrow with rfl | rfl | rfl <;> rfl

/-- Everything the claims need about one generated level: the solution
evaluates to the stored target, the target is at least 1083, the solution
passes the rule validator, and the starting grid carries exactly the
scheduled number of given digits. -/
theorem generateLevel_spec (l : LevelRand) (i : Nat) :
    Except.map (fun r => r.value) (evaluateGrid (generateLevel l i).solution)
        = .ok (generateLevel l i).puzzle.target
    ∧ 1083 ≤ (generateLevel l i).puzzle.target
    ∧ (validatePuzzleRules (generateLevel l i).puzzle
        (generateLevel l i).solution).ok = true
    ∧ givenDigitCount (generateLevel l i).puzzle.grid = hintCountFor i := by
  have p1 : (shuffle l.s1 (ROW_DIGITS.getD 0 [])).Perm [1, 2, 3] :=
    shuffle_perm l.s1 _
  have p2 : (shuffle l.s2 (ROW_DIGITS.getD 1 [])).Perm [4, 5, 6] :=
    shuffle_perm l.s2 _
  have p3 : (shuffle l.s3 (ROW_DIGITS.getD 2 [])).Perm [7, 8, 9] :=
    shuffle_perm l.s3 _
  obtain ⟨a, b, c, h1⟩ := List.length_eq_three.1 p1.length_eq
  obtain ⟨d, e, f, h2⟩ := List.length_eq_three.1 p2.length_eq
  obtain ⟨g, h, i9, h3⟩ := List.length_eq_three.1 p3.length_eq
  rw [h1] at p1
  rw [h2] at p2
  rw [h3] at p3
  obtain ⟨b1a, b1b, b1c, b1d, b1e, b1f, b1g⟩ := pool1_bound p1
  obtain ⟨b2a, b2b, b2c, b2d, b2e⟩ := pool2_bound p2
  obtain ⟨b3a, b3b, b3c, b3d, b3e, b3f, b3g⟩ := pool3_bound p3
  simp only [generateLevel, h1, h2, h3]
  generalize (if l.c2 then Op.plus else Op.minus) = op2
  generalize (if l.c3 then Op.plus else Op.minus) = op3
  have hev := eval_solGrid a b c d e f g h i9 op2 op3
    (by omega) (by omega) (by omega) (by omega) (by omega) (by omega)
    (by omega) (by omega)
  have htar := target_of_map hev
  refine ⟨?_, ?_, ?_, ?_⟩
  · rw [htar]
    exact hev
  · rw [htar]
    cases op2 <;> cases op3 <;>
      simp only [applyOp_plus, applyOp_minus] <;> push_cast <;> omega
  · exact validate_solGrid _ rfl a b c d e f g h i9 op2 op3 p1 p2 p3
  · exact givenDigitCount_applyHints l.hs op2 op3 _ (hintCountFor i)
      (solGrid_digitAt _ _ _ _ _)
      (le_trans (hintCountFor_le_two i) (by omega))

theorem mem_generateLevels {ls : Nat → LevelRand} {count : Nat} {lv : Level}
    (h : lv ∈ generateLevels ls count) :
    ∃ k, k < count ∧ lv = generateLevel (ls k) (k + 1) := by
  simp [generateLevels] at h
  obtain ⟨k, hk, he⟩ := h
  exact ⟨k, hk, he.symm⟩

theorem getElem?_generateLevels {ls : Nat → LevelRand} {count k : Nat}
    {lv : Level} (h : (generateLevels ls count)[k]? = some lv) :
    lv = generateLevel (ls k) (k + 1) := by
  rw [generateLevels, List.getElem?_map] at h
  by_cases hk : k < count
  · rw [List.getElem?_range hk] at h
    simp at h
    exact h.symm
  · rw [List.getElem?_eq_none (by simpa using Nat.le_of_not_lt hk)] at h
    simp at h

/-! ### The evaluator is the left-to-right fold -/

theorem evalOps_fold (rest : List (Op × Int)) (acc : Int) :
    evalOps acc (rest.flatMap fun p => [Token.op p.1, Token.num p.2])
      = .ok (rest.foldl (fun acc p => applyOp acc p.1 p.2) acc) := by
  induction rest generalizing acc with
  | nil => rfl
  | cons p ps ih =>
    simp only [List.flatMap] at ih
    simp [evalOps, ih]

/-! ### Complete grids -/

theorem gridIsComplete_iff (g : Grid) :
    gridIsComplete g = true ↔ ∀ c ∈ g.flatten, c ≠ Cell.empty := by
  rw [gridIsComplete]
  simp only [List.all_eq_true, List.mem_flatten]
  constructor
  · rintro h c ⟨row, hrow, hc⟩
    have := h row hrow c hc
    cases c <;> simp [isEmptyC] at this ⊢
  · intro h row hrow c hc
    have := h c ⟨row, hrow, hc⟩
    cases c <;> simp [isEmptyC]
    exact this rfl

theorem cellCounts (row : List Cell) :
    (digitsOf row).length + (row.filter isOpC).length + row.countP isEmptyC
      = row.length := by
  induction row with
  | nil => rfl
  | cons c cs ih =>
    cases c <;>
      simp [digitsOf, digitVal, isOpC, isEmptyC, List.countP_cons,
        ← ih, digitsOf] <;>
      omega

/-! ### The tokenizer produces the specification's run decomposition -/

theorem consRun_nil (p : List (List Nat × Op) × List Nat) : consRun [] p = p := by
  rcases p with ⟨_ | ⟨⟨ds, o⟩, runs⟩, last⟩ <;> simp [consRun]

theorem consRun_consRun (xs ys : List Nat) (p : List (List Nat × Op) × List Nat) :
    consRun xs (consRun ys p) = consRun (xs ++ ys) p := by
  rcases p with ⟨_ | ⟨⟨ds, o⟩, runs⟩, last⟩ <;> simp [consRun]

theorem toRuns_digit (v : Nat) (gv : Bool) (cs : List Cell) :
    toRuns (Cell.digit v gv :: cs) = consRun [v] (toRuns cs) := by
  rcases h : toRuns cs with ⟨_ | ⟨⟨ds, o⟩, runs⟩, last⟩ <;>
    simp [toRuns, consRun, h]

theorem toRuns_op (o : Op) (gv : Bool) (cs : List Cell) :
    toRuns (Cell.op o gv :: cs) = (([], o) :: (toRuns cs).1, (toRuns cs).2) := by
  simp [toRuns]

theorem buildGo_spec (cells : List Cell) (tokens : List Token) (cur : List Nat)
    (hne : ∀ c ∈ cells, c ≠ Cell.empty)
    (hdig : ∀ v ∈ digitsOf cells, v < 10) (hcur : ∀ v ∈ cur, v < 10) :
    buildGo cells tokens cur = .ok (tokens ++
      tokensOfRuns (consRun cur (toRuns cells)).1 (consRun cur (toRuns cells)).2) := by
  induction cells generalizing tokens cur with
  | nil =>
    cases cur with
    | nil => simp [buildGo, flushNumber, toRuns, consRun, tokensOfRuns]
    | cons v vs =>
      rw [buildGo, flushNumber]
      simp [toRuns, consRun, tokensOfRuns, concatDigits_eq_specNum hcur]
  | cons c cs ih =>
    cases c with
    | digit v gv =>
      have hdg : digitsOf (Cell.digit v gv :: cs) = v :: digitsOf cs := rfl
      rw [hdg] at hdig
      rw [buildGo]
      rw [ih tokens (cur ++ [v])
        (fun x hx => hne x (by simp [hx]))
        (fun x hx => hdig x (by simp [hx]))
        (by
          intro x hx
          rcases List.mem_append.1 hx with h | h
          · exact hcur x h
          · have hxv : x = v := by simpa using h
            subst hxv
            exact hdig x (by simp))]
      rw [toRuns_digit, consRun_consRun]
    | op o gv =>
      have hdg : digitsOf (Cell.op o gv :: cs) = digitsOf cs := rfl
      rw [hdg] at hdig
      rw [buildGo]
      rw [ih (flushNumber cur tokens ++ [Token.op o]) []
        (fun x hx => hne x (by simp [hx]))
        (fun x hx => hdig x hx)
        (by simp)]
      rw [toRuns_op, consRun_nil]
      rcases hp : toRuns cs with ⟨runs, last⟩
      cases cur with
      | nil =>
        simp [flushNumber, consRun, tokensOfRuns]
      | cons v vs =>
        rw [flushNumber]
        simp [consRun, tokensOfRuns, concatDigits_eq_specNum hcur]
    | empty => exact absurd rfl (hne Cell.empty (by simp))

/-- On a complete (no empty cell) flattened grid with single-decimal-digit
cells, the source tokenizer produces exactly the specification's token
sequence (maximal digit runs to positionally concatenated numbers,
operators to operator tokens, in reading order). -/
theorem buildTokens_spec (g : Grid) (hne : ∀ c ∈ g.flatten, c ≠ Cell.empty)
    (hdig : ∀ v ∈ digitsOf g.flatten, v < 10) :
    buildTokensFromGrid g = .ok (specTokens g.flatten) := by
  rw [buildTokensFromGrid, buildGo_spec g.flatten [] [] hne hdig (by simp)]
  simp [specTokens, consRun_nil]

/-! ### Clone isolation in the store semantics -/

theorem readGrid_congr {st st' : Store} (g : RGrid)
    (h : ∀ a ∈ g.flatten, st.mem a = st'.mem a) :
    readGrid st g = readGrid st' g := by
  unfold readGrid
  refine List.map_congr_left ?_
  intro row hrow
  refine List.map_congr_left ?_
  intro a ha
  exact h a (by rw [List.mem_flatten]; exact ⟨row, hrow, ha⟩)

theorem cloneCells_spec (as : List Nat) (st : Store) :
    (cloneCells st as).1.next = st.next + as.length
    ∧ (∀ b, b < st.next → (cloneCells st as).1.mem b = st.mem b)
    ∧ (∀ b ∈ (cloneCells st as).2, st.next ≤ b ∧ b < (cloneCells st as).1.next)
    ∧ ((∀ a ∈ as, a < st.next) →
        (cloneCells st as).2.map (cloneCells st as).1.mem = as.map st.mem) := by
  induction as generalizing st with
  | nil => simp [cloneCells]
  | cons a as ih =>
    obtain ⟨ih1, ih2, ih3, ih4⟩ := ih (alloc st (st.mem a)).1
    have hnext : (alloc st (st.mem a)).1.next = st.next + 1 := rfl
    rw [hnext] at ih1
    refine ⟨?_, ?_, ?_, ?_⟩
    · show (cloneCells (alloc st (st.mem a)).1 as).1.next = st.next + (a :: as).length
      rw [ih1]
      simp
      omega
    · intro b hb
      show (cloneCells (alloc st (st.mem a)).1 as).1.mem b = st.mem b
      rw [ih2 b (by omega)]
      show (if b = st.next then st.mem a else st.mem b) = st.mem b
      rw [if_neg (by omega)]
    · intro b hb
      show st.next ≤ b ∧ b < (cloneCells (alloc st (st.mem a)).1 as).1.next
      rw [ih1]
      rcases List.mem_cons.1 hb with rfl | hmem
      · constructor
        · show st.next ≤ st.next
          exact Nat.le_refl _
        · show st.next < st.next + 1 + as.length
          omega
      · obtain ⟨h1, h2⟩ := ih3 b hmem
        rw [ih1] at h2
        rw [hnext] at h1
        exact ⟨by omega, h2⟩
    · intro hwf
      show ((cloneCells (alloc st (st.mem a)).1 as).1.mem st.next)
          :: (cloneCells (alloc st (st.mem a)).1 as).2.map
            (cloneCells (alloc st (st.mem a)).1 as).1.mem
        = st.mem a :: as.map st.mem
      have hval : (cloneCells (alloc st (st.mem a)).1 as).1.mem st.next
          = st.mem a := by
        rw [ih2 st.next (by omega)]
        show (if st.next = st.next then st.mem a else st.mem st.next) = st.mem a
        rw [if_pos rfl]
      rw [hval]
      have hrest := ih4 (by
        intro x hx
        have := hwf x (by simp [hx])
        omega)
      rw [hrest]
      have : as.map (alloc st (st.mem a)).1.mem = as.map st.mem := by
        refine List.map_congr_left ?_
        intro x hx
        have hxlt : x < st.next := hwf x (by simp [hx])
        show (if x = st.next then st.mem a else st.mem x) = st.mem x
        rw [if_neg (by omega)]
      rw [this]

theorem cloneGrid_spec (rows : RGrid) (st : Store) :
    st.next ≤ (cloneGrid st rows).1.next
    ∧ (∀ b, b < st.next → (cloneGrid st rows).1.mem b = st.mem b)
    ∧ (∀ b ∈ (cloneGrid st rows).2.flatten,
        st.next ≤ b ∧ b < (cloneGrid st rows).1.next)
    ∧ (wfR st rows →
        readGrid (cloneGrid st rows).1 (cloneGrid st rows).2 = readGrid st rows) := by
  induction rows generalizing st with
  | nil => simp [cloneGrid, readGrid, wfR]
  | cons row rows ih =>
    obtain ⟨c1, c2, c3, c4⟩ := cloneCells_spec row st
    obtain ⟨ih1, ih2, ih3, ih4⟩ := ih (cloneCells st row).1
    have hstep : st.next ≤ (cloneCells st row).1.next := by
      rw [c1]
      omega
    refine ⟨?_, ?_, ?_, ?_⟩
    · show st.next ≤ (cloneGrid (cloneCells st row).1 rows).1.next
      omega
    · intro b hb
      show (cloneGrid (cloneCells st row).1 rows).1.mem b = st.mem b
      rw [ih2 b (by omega)]
      exact c2 b hb
    · intro b hb
      show st.next ≤ b ∧ b < (cloneGrid (cloneCells st row).1 rows).1.next
      have hb2 : b ∈ (cloneCells st row).2
          ++ (cloneGrid (cloneCells st row).1 rows).2.flatten := hb
      rcases List.mem_append.1 hb2 with hmem | hmem
      · obtain ⟨h1, h2⟩ := c3 b hmem
        exact ⟨h1, by omega⟩
      · obtain ⟨h1, h2⟩ := ih3 b hmem
        exact ⟨by omega, h2⟩
    · intro hwf
      have hwfrow : ∀ a ∈ row, a < st.next := by
        intro x hx
        exact hwf x (by rw [List.flatten_cons]; exact List.mem_append_left _ hx)
      have hwfrest : wfR (cloneCells st row).1 rows := by
        intro x hx
        have hxl := hwf x (by rw [List.flatten_cons]; exact List.mem_append_right _ hx)
        omega
      have h1 : (cloneCells st row).2.map
          (cloneGrid (cloneCells st row).1 rows).1.mem = row.map st.mem := by
        have e1 : (cloneCells st row).2.map
            (cloneGrid (cloneCells st row).1 rows).1.mem
            = (cloneCells st row).2.map (cloneCells st row).1.mem := by
          refine List.map_congr_left ?_
          intro b hb
          exact ih2 b (c3 b hb).2
        rw [e1]
        exact c4 hwfrow
      have h2 : readGrid (cloneGrid (cloneCells st row).1 rows).1
          (cloneGrid (cloneCells st row).1 rows).2 = readGrid st rows := by
        rw [ih4 hwfrest]
        refine readGrid_congr rows ?_
        intro a ha
        exact c2 a (hwf a (by rw [List.flatten_cons]; exact List.mem_append_right _ ha))
      show ((cloneCells st row).2.map
            (cloneGrid (cloneCells st row).1 rows).1.mem)
          :: readGrid (cloneGrid (cloneCells st row).1 rows).1
              (cloneGrid (cloneCells st row).1 rows).2
        = (row.map st.mem) :: readGrid st rows
      rw [h1, h2]

/-! ### Claim theorems -/

/-- C1: for every count at least 1 and every Level in the sequence returned
by `generateLevels(count)`, evaluating the level's solution grid succeeds,
its value equals `puzzle.target`, and `validatePuzzleRules(puzzle, solution)`
returns ok. -/
theorem generator_soundness (ls : Nat → LevelRand) (count : Nat)
    (hc : 1 ≤ count) :
    ∀ lv ∈ generateLevels ls count,
      Except.map (fun r => r.value) (evaluateGrid lv.solution)
          = .ok lv.puzzle.target
        ∧ (validatePuzzleRules lv.puzzle lv.solution).ok = true := by
  intro lv hlv
  obtain ⟨k, hk, rfl⟩ := mem_generateLevels hlv
  obtain ⟨h1, _, h3, _⟩ := generateLevel_spec (ls k) (k + 1)
  exact ⟨h1, h3⟩

theorem generator_soundness_witness :
    Except.map (fun r => r.value)
        (evaluateGrid (generateLevel wRand 1).solution)
        = .ok (generateLevel wRand 1).puzzle.target
      ∧ (validatePuzzleRules (generateLevel wRand 1).puzzle
          (generateLevel wRand 1).solution).ok = true :=
  generator_soundness (fun _ => wRand) 1 (by decide)
    (generateLevel wRand 1) (by decide)

/-- C2: `evalLeftToRight` is the strict left-to-right fold with no operator
precedence: on an alternating sequence it folds each (operator, number) pair
into the accumulator in order, and `evalLeftToRight([12,'+',3,'-',6]) = 9`. -/
theorem evalLeftToRight_fold :
    (∀ (n0 : Int) (rest : List (Op × Int)),
      evalLeftToRight (toTokens n0 rest) = .ok (foldLTR n0 rest))
    ∧ evalLeftToRight [Token.num 12, Token.op Op.plus, Token.num 3,
        Token.op Op.minus, Token.num 6] = .ok 9 := by
  constructor
  · intro n0 rest
    rw [toTokens, evalLeftToRight]
    exact evalOps_fold rest n0
  · rfl

/-- C3: on every complete grid whose digit cells hold single decimal
digits, the tokenizer produces the specification's token sequence: the
row-major flattening decomposed into maximal digit runs, each run one
number token worth its positional base-10 concatenation (`[a,b,c]` yields
`100*a+10*b+c`), each operator cell one operator token. -/
theorem tokenizer_concatenation :
    (∀ g : Grid, (∀ c ∈ g.flatten, c ≠ Cell.empty) →
      (∀ v ∈ digitsOf g.flatten, v < 10) →
      buildTokensFromGrid g = .ok (specTokens g.flatten))
    ∧ (∀ a b c : Nat, specNum [a, b, c] = 100 * a + 10 * b + c) := by
  constructor
  · exact buildTokens_spec
  · intro a b c
    simp [specNum]
    ring

theorem tokenizer_concatenation_witness :
    buildTokensFromGrid refSolution = .ok (specTokens refSolution.flatten) :=
  tokenizer_concatenation.1 refSolution (by decide) (by decide)

/-- C4: on every 3-by-4 grid accepted by `validatePuzzleRules`, no digit
value occupies more than one digit cell, exactly 9 digits are placed, every
digit in row `r` belongs to `puzzle.rowDigits[r]`, and every row holds
exactly one operator cell; equivalently, validation fails whenever some row
has 0 or 2-or-more operator cells. -/
theorem validator_invariants (p : Puzzle) (g : Grid)
    (h3 : g.length = 3) (h4 : ∀ row ∈ g, row.length = 4) :
    ((validatePuzzleRules p g).ok = true →
      (digitsOf g.flatten).Nodup
      ∧ (digitsOf g.flatten).length = 9
      ∧ (∀ k row, g[k]? = some row →
          ∀ v ∈ digitsOf row, v ∈ p.rowDigits.getD k [])
      ∧ (∀ row ∈ g, (row.filter isOpC).length = 1))
    ∧ (∀ row ∈ g, (row.filter isOpC).length ≠ 1 →
        (validatePuzzleRules p g).ok = false) := by
  constructor
  · intro h
    exact (validate_ok_iff p g).1 h
  · intro row hrow hne
    cases hb : (validatePuzzleRules p g).ok with
    | false => rfl
    | true => exact absurd (((validate_ok_iff p g).1 hb).2.2.2 row hrow) hne

theorem validator_invariants_witness :
    (digitsOf refSolution.flatten).Nodup
      ∧ (digitsOf refSolution.flatten).length = 9 :=
  ⟨(((validator_invariants samplePuzzle refSolution (by decide)
      (by decide)).1 (by decide))).1,
   (((validator_invariants samplePuzzle refSolution (by decide)
      (by decide)).1 (by decide))).2.1⟩

/-- C5: in the sequence returned by `generateLevels`, the starting grid of
the level at 0-based index `k` (level number `k+1`) carries exactly
`hintCountFor (k+1)` given digit cells, and `hintCountFor` is 2 on levels
1–39, 1 on levels 40–79, 0 from level 80 on, and non-increasing in the
level number. -/
theorem hint_schedule :
    (∀ (ls : Nat → LevelRand) (N k : Nat) (lv : Level),
      (generateLevels ls N)[k]? = some lv →
      givenDigitCount lv.puzzle.grid = hintCountFor (k + 1))
    ∧ (∀ i, 1 ≤ i → i ≤ 39 → hintCountFor i = 2)
    ∧ (∀ i, 40 ≤ i → i ≤ 79 → hintCountFor i = 1)
    ∧ (∀ i, 80 ≤ i → hintCountFor i = 0)
    ∧ (∀ i j, i ≤ j → hintCountFor j ≤ hintCountFor i) := by
  refine ⟨?_, ?_, ?_, ?_, ?_⟩
  · intro ls N k lv h
    rw [getElem?_generateLevels h]
    exact (generateLevel_spec (ls k) (k + 1)).2.2.2
  · intro i h1 h2
    unfold hintCountFor
    split_ifs <;> omega
  · intro i h1 h2
    unfold hintCountFor
    split_ifs <;> omega
  · intro i h1
    unfold hintCountFor
    split_ifs <;> omega
  · intro i j hij
    unfold hintCountFor
    split_ifs <;> omega

theorem hint_schedule_witness :
    givenDigitCount (generateLevel wRand 1).puzzle.grid = hintCountFor (0 + 1) :=
  hint_schedule.1 (fun _ => wRand) 1 0 (generateLevel wRand 1) (by decide)

/-- C6 counterexample: `evalLeftToRight` applied to the one-token sequence
`[5]` (length < 3) does not fail: it returns the value 5.  The length-3
grammar check lives in `evaluateGrid`, not in `evalLeftToRight`. -/
theorem evalLeftToRight_short_ok :
    ([Token.num 5] : List Token).length < 3
      ∧ evalLeftToRight [Token.num 5] = .ok 5 :=
  ⟨by decide, rfl⟩

/-- C6 (amended): every token sequence of length below 3 is rejected by the
grammar check `evaluateGrid` performs before arithmetic; `evalLeftToRight`
itself fails on every such sequence except a single number token, on which
it returns that number's value. -/
theorem grammar_short_rejection :
    (∀ ts : List Token, ts.length < 3 → isOkE (grammarCheck ts) = false)
    ∧ (∀ ts : List Token, ts.length < 3 → (∀ n : Int, ts ≠ [Token.num n]) →
        isOkE (evalLeftToRight ts) = false)
    ∧ (∀ n : Int, evalLeftToRight [Token.num n] = .ok n) := by
  refine ⟨?_, ?_, ?_⟩
  · intro ts h
    rw [grammarCheck, if_pos h]
    rfl
  · intro ts h hn
    rcases ts with _ | ⟨t1, _ | ⟨t2, rest⟩⟩
    · rfl
    · cases t1 with
      | num n => exact absurd rfl (hn n)
      | op o => rfl
    · have hrest : rest = [] := by
        simp at h
        exact List.eq_nil_of_length_eq_zero (by omega)
      subst hrest
      cases t1 with
      | op o => rfl
      | num n =>
        cases t2 with
        | num m => rfl
        | op o => rfl
  · intro n
    rfl

theorem grammar_short_rejection_witness :
    isOkE (grammarCheck [Token.op Op.plus]) = false
      ∧ isOkE (evalLeftToRight [Token.op Op.plus]) = false
      ∧ evalLeftToRight [Token.num 7] = .ok 7 :=
  ⟨grammar_short_rejection.1 [Token.op Op.plus] (by decide),
   grammar_short_rejection.2.1 [Token.op Op.plus] (by decide)
     (fun n h => by simp at h),
   grammar_short_rejection.2.2 7⟩

/-- C7: for the fixed reference puzzle of `SAMPLE_PUZZLES` (row pools
`{1,2,3},{4,5,6},{7,8,9}`, the fixed operator topology, given digits 6 and
9, target 2379), the complete grid `refSolution` extends the givens, passes
`validatePuzzleRules`, and evaluates to 2379 — the puzzle's target. -/
theorem reference_puzzle_solvable :
    ∀ p ∈ SAMPLE_PUZZLES,
      gridExtends p.grid refSolution = true
      ∧ gridIsComplete refSolution = true
      ∧ (validatePuzzleRules p refSolution).ok = true
      ∧ Except.map (fun r => r.value) (evaluateGrid refSolution) = .ok p.target
      ∧ p.target = 2379 := by
  intro p hp
  have hps : p = samplePuzzle := by simpa [SAMPLE_PUZZLES] using hp
  subst hps
  exact ⟨by decide, by decide, by decide, rfl, rfl⟩

theorem reference_puzzle_solvable_witness :
    gridExtends samplePuzzle.grid refSolution = true
      ∧ (validatePuzzleRules samplePuzzle refSolution).ok = true :=
  ⟨(reference_puzzle_solvable samplePuzzle (by decide)).1,
   (reference_puzzle_solvable samplePuzzle (by decide)).2.2.1⟩

/-- C8: in the reference-store semantics, `cloneGrid` returns a grid whose
cell at every position holds the same value as the input's, whose cell
references are all distinct from the input's, so that overwriting any cell
of the clone never changes what the input grid reads. -/
theorem clone_isolation (st : Store) (g : RGrid) (hwf : wfR st g) :
    readGrid (cloneGrid st g).1 (cloneGrid st g).2 = readGrid st g
    ∧ (∀ b ∈ (cloneGrid st g).2.flatten, ∀ a ∈ g.flatten, b ≠ a)
    ∧ (∀ b ∈ (cloneGrid st g).2.flatten, ∀ v : Cell,
        readGrid (write (cloneGrid st g).1 b v) g = readGrid st g) := by
  obtain ⟨c1, c2, c3, c4⟩ := cloneGrid_spec g st
  refine ⟨c4 hwf, ?_, ?_⟩
  · intro b hb a ha
    have h1 := (c3 b hb).1
    have h2 := hwf a ha
    omega
  · intro b hb v
    refine readGrid_congr g ?_
    intro a ha
    have hab : a ≠ b := by
      have h1 := (c3 b hb).1
      have h2 := hwf a ha
      omega
    show (if a = b then v else (cloneGrid st g).1.mem a) = st.mem a
    rw [if_neg hab]
    exact c2 a (hwf a ha)

theorem clone_isolation_witness :
    readGrid (write (cloneGrid wStore wRGrid).1 2 (Cell.digit 5 false))
        wRGrid = readGrid wStore wRGrid :=
  (clone_isolation wStore wRGrid (by decide)).2.2 2 (by decide)
    (Cell.digit 5 false)

/-- C9: on every 3-by-4 grid, passing `validatePuzzleRules` forces
completeness: 9 distinct digit cells plus one operator cell per row fill
all 12 cells, so a rule-valid grid has no empty cell. -/
theorem valid_implies_complete (p : Puzzle) (g : Grid)
    (h3 : g.length = 3) (h4 : ∀ row ∈ g, row.length = 4)
    (h : (validatePuzzleRules p g).ok = true) :
    gridIsComplete g = true := by
  obtain ⟨hnd, hlen, hcp, hco⟩ := (validate_ok_iff p g).1 h
  obtain ⟨r0, r1, r2, rfl⟩ := List.length_eq_three.1 h3
  have l0 := h4 r0 (by simp)
  have l1 := h4 r1 (by simp)
  have l2 := h4 r2 (by simp)
  have hc0 := cellCounts r0
  have hc1 := cellCounts r1
  have hc2 := cellCounts r2
  have ho0 := hco r0 (by simp)
  have ho1 := hco r1 (by simp)
  have ho2 := hco r2 (by simp)
  have hlen2 : (digitsOf r0).length + (digitsOf r1).length
      + (digitsOf r2).length = 9 := by
    have he : digitsOf ([r0, r1, r2] : Grid).flatten
        = digitsOf r0 ++ (digitsOf r1 ++ digitsOf r2) := by
      simp [digitsOf_append]
    rw [he] at hlen
    simpa [Nat.add_assoc] using hlen
  rw [gridIsComplete]
  simp only [List.all_eq_true]
  intro row hrow
  have hrowe : row.countP isEmptyC = 0 := by
    have hm : row = r0 ∨ row = r1 ∨ row = r2 := by simpa using hrow
    rcases hm with rfl | rfl | rfl <;> omega
  intro c hc
  have hce := List.countP_eq_zero.1 hrowe c hc
  cases c <;> simp [isEmptyC] at hce ⊢

/-- C9 is exercised on the concrete reference solution grid. -/
theorem valid_implies_complete_witness :
    gridIsComplete refSolution = true :=
  valid_implies_complete samplePuzzle refSolution (by decide) (by decide)
    (by decide)

/-- C10 counterexample: a run of `generateLevels` whose single level has
target 1083, below the claimed lower bound 1092. -/
theorem target_below_1092 :
    ((generateLevels (fun _ => cRand) 1).map fun lv => lv.puzzle.target)
        = [1083]
      ∧ ¬(1092 ≤ (1083 : Int)) :=
  ⟨by decide, by decide⟩

/-- C10 (amended): every level produced by `generateLevels` has a strictly
positive target; with the fixed operator topology and the pools
`{1,2,3},{4,5,6},{7,8,9}`, the left-to-right value of the solution grid —
which the target equals — is at least 1083 (the exact minimum, attained
when both free operators are `'-'`), not 1092. -/
theorem target_positive_bound (ls : Nat → LevelRand) (count : Nat) :
    ∀ lv ∈ generateLevels ls count,
      0 < lv.puzzle.target ∧ 1083 ≤ lv.puzzle.target
      ∧ Except.map (fun r => r.value) (evaluateGrid lv.solution)
          = .ok lv.puzzle.target := by
  intro lv hlv
  obtain ⟨k, hk, rfl⟩ := mem_generateLevels hlv
  obtain ⟨h1, h2, _, _⟩ := generateLevel_spec (ls k) (k + 1)
  exact ⟨by omega, h2, h1⟩

theorem target_positive_bound_witness :
    0 < (generateLevel wRand 1).puzzle.target
      ∧ 1083 ≤ (generateLevel wRand 1).puzzle.target
      ∧ Except.map (fun r => r.value)
          (evaluateGrid (generateLevel wRand 1).solution)
          = .ok (generateLevel wRand 1).puzzle.target :=
  target_positive_bound (fun _ => wRand) 1 (generateLevel wRand 1) (by decide)

end NumFlow
